import Mathlib

/-!
Verification of the crossword-clue annotation core (segment model, selection
reconciler, summary projection) of the `wordplay` repository.

The embedding follows `src/types.tsx`, `src/config.tsx` and
`src/ClueHighlighter.tsx`.  JavaScript strings are modelled on the character
level (`String` / `List Char`); JavaScript array operations are modelled by
the corresponding `List` operations.  The fallible behavior-table lookup
(`segmentBehaviors[currentMode.behaviorKey]`, which crashes on an unknown
key) is modelled with `Option`.
-/

namespace Wordplay

/-! ## JavaScript string primitives -/

/-- The character class `\s` of JavaScript regular expressions:
tab, line feed, vertical tab, form feed, carriage return, space,
no-break space, ogham space mark, the en-quad .. hair-space block,
line separator, paragraph separator, narrow no-break space,
medium mathematical space, ideographic space, and the byte-order mark. -/
def isJsWhitespace (c : Char) : Bool :=
  let n := c.toNat
  n == 0x09 || n == 0x0A || n == 0x0B || n == 0x0C || n == 0x0D || n == 0x20 ||
  n == 0xA0 || n == 0x1680 || (0x2000 ≤ n && n ≤ 0x200A) ||
  n == 0x2028 || n == 0x2029 || n == 0x202F || n == 0x205F || n == 0x3000 ||
  n == 0xFEFF

/-- JavaScript `String.prototype.toUpperCase`, on the character level
(accurate on ASCII, which is all the configuration tables rely on). -/
def jsToUpperCase (s : String) : String :=
  String.mk (s.data.map Char.toUpper)

/-- One step (right fold) of `text.split(/\s+/)`: the accumulator holds the
words found so far (never empty) and whether the character just to the right
was whitespace, so that a maximal whitespace run produces a single split
point while leading and trailing runs still produce empty pieces, exactly as
the JavaScript regular-expression split does. -/
def splitRunsStep (c : Char) : List (List Char) × Bool → List (List Char) × Bool
  | (words, rightWs) =>
    if isJsWhitespace c then
      if rightWs then (words, true) else ([] :: words, true)
    else
      match words with
      | [] => ([[c]], false)
      | w :: ws => ((c :: w) :: ws, false)

/-- JavaScript `text.split(/\s+/)`: split on maximal runs of whitespace.
`"".split` gives `[""]`, a leading (trailing) run contributes a leading
(trailing) empty piece, and interior runs of any length give one split. -/
def splitWhitespaceRuns (text : String) : List String :=
  ((text.data.foldr splitRunsStep ([[]], false)).1).map String.mk

/-- JavaScript `text.slice(start, end + 1)` (the inclusive slice
`text[start .. end]`), on the character level; out-of-range indices clamp. -/
def sliceInclusive (text : String) (start «end» : Nat) : String :=
  String.mk ((text.data.drop start).take («end» + 1 - start))

/-! ## Data model (`src/types.tsx`) -/

/-- The `WordplayType` type from `types.tsx`. -/
structure WordplayType where
  key : String
  name : String
  symbol : String
deriving DecidableEq

/-- The `Mode` type from `types.tsx`. -/
structure Mode where
  key : String
  name : String
  style : String
  selectedStyle : Option String := none
  behaviorKey : String
deriving DecidableEq

/-- The `SegmentBehavior` type from `types.tsx`. -/
structure SegmentBehavior where
  getDefaultResolution : String → String
  showResolutionInput : Bool
  resolutionEditable : Bool
  showWordplaySelector : Bool

/-- The `Segment` type from `types.tsx`; the inclusive character range is
`[start, end]`. -/
structure Segment where
  id : String
  start : Nat
  «end» : Nat
  text : String
  mode : Mode
  resolution : String
  wordplayType : Option WordplayType := none
deriving DecidableEq

/-! ## Configuration tables (`src/config.tsx`) -/

/-- The `fodder.getDefaultResolution` function from `config.tsx`:
`text.replace(/\s/g, "").toUpperCase().split("").join("")`
(the final `split("").join("")` is the identity). -/
def fodderGetDefaultResolution (text : String) : String :=
  jsToUpperCase (String.mk (text.data.filter (fun c => !(isJsWhitespace c))))

/-- The `abbreviation.getDefaultResolution` function from `config.tsx`:
`text.split(/\s+/).map(word => word[0] || "").join("").toUpperCase()`. -/
def abbreviationGetDefaultResolution (text : String) : String :=
  jsToUpperCase (String.join ((splitWhitespaceRuns text).map (fun word =>
    match word.data with
    | [] => ""
    | c :: _ => String.mk [c])))

/-- The `fodder` entry of `segmentBehaviors`. -/
def fodderBehavior : SegmentBehavior :=
  { getDefaultResolution := fodderGetDefaultResolution
    showResolutionInput := true
    resolutionEditable := false
    showWordplaySelector := false }

/-- The `synonym` entry of `segmentBehaviors`. -/
def synonymBehavior : SegmentBehavior :=
  { getDefaultResolution := fun _ => ""
    showResolutionInput := true
    resolutionEditable := true
    showWordplaySelector := false }

/-- The `abbreviation` entry of `segmentBehaviors`. -/
def abbreviationBehavior : SegmentBehavior :=
  { getDefaultResolution := abbreviationGetDefaultResolution
    showResolutionInput := true
    resolutionEditable := true
    showWordplaySelector := false }

/-- The `wordplayIndicator` entry of `segmentBehaviors`. -/
def wordplayIndicatorBehavior : SegmentBehavior :=
  { getDefaultResolution := fun _ => ""
    showResolutionInput := false
    resolutionEditable := false
    showWordplaySelector := true }

/-- The `definition` entry of `segmentBehaviors`. -/
def definitionBehavior : SegmentBehavior :=
  { getDefaultResolution := fun _ => ""
    showResolutionInput := true
    resolutionEditable := true
    showWordplaySelector := false }

/-- The `clear` entry of `segmentBehaviors`. -/
def clearBehavior : SegmentBehavior :=
  { getDefaultResolution := fun _ => ""
    showResolutionInput := false
    resolutionEditable := false
    showWordplaySelector := false }

/-- The `segmentBehaviors` record from `config.tsx`; an unknown key gives
`none` (in the source, indexing the record with an unknown key gives
`undefined` and any use of it crashes). -/
def segmentBehaviors (key : String) : Option SegmentBehavior :=
  if key == "fodder" then some fodderBehavior
  else if key == "synonym" then some synonymBehavior
  else if key == "abbreviation" then some abbreviationBehavior
  else if key == "wordplayIndicator" then some wordplayIndicatorBehavior
  else if key == "definition" then some definitionBehavior
  else if key == "clear" then some clearBehavior
  else none

/-- The `Clear` mode from the `modes` table of `config.tsx`. -/
def clearMode : Mode :=
  { key := "-", name := "Clear", style := "", behaviorKey := "clear" }

/-- The `Fodder` mode from the `modes` table of `config.tsx`. -/
def fodderMode : Mode :=
  { key := "f", name := "Fodder", style := "text-yellow-500",
    behaviorKey := "fodder" }

/-- The `Wordplay Indicator` mode from the `modes` table of `config.tsx`. -/
def wordplayIndicatorMode : Mode :=
  { key := "w", name := "Wordplay Indicator", style := "text-pink-500",
    behaviorKey := "wordplayIndicator" }

/-- The `Synonym` mode from the `modes` table of `config.tsx`. -/
def synonymMode : Mode :=
  { key := "s", name := "Synonym", style := "text-green-500",
    selectedStyle := some "bg-green-500/10", behaviorKey := "synonym" }

/-- The `Abbreviation` mode from the `modes` table of `config.tsx`. -/
def abbreviationMode : Mode :=
  { key := "a", name := "Abbreviation", style := "text-green-700",
    behaviorKey := "abbreviation" }

/-- The `Definition` mode from the `modes` table of `config.tsx`. -/
def definitionMode : Mode :=
  { key := "d", name := "Definition", style := "text-red-500",
    behaviorKey := "definition" }

/-- The `modes` table from `config.tsx`. -/
def modes : List Mode :=
  [clearMode, fodderMode, wordplayIndicatorMode, synonymMode,
   abbreviationMode, definitionMode]

/-- The `wordplayTypes` table from `config.tsx`. -/
def wordplayTypes : List WordplayType :=
  [{ key := "anag", name := "Anagram", symbol := "⟳" },
   { key := "rev", name := "Reversal", symbol := "←" },
   { key := "cont", name := "Container", symbol := "⊂" },
   { key := "hid", name := "Hidden", symbol := "…" },
   { key := "del", name := "Deletion", symbol := "✂" },
   { key := "first", name := "First letter", symbol := "↑" },
   { key := "last", name := "Last letter", symbol := "↓" },
   { key := "homo", name := "Homophone", symbol := "♪" },
   { key := "other", name := "Other wordplay", symbol := "?" }]

/-! ## Selection reconciler (`src/ClueHighlighter.tsx`) -/

/-- The keep-predicate of the two `segments.filter` calls in
`addOrUpdateSegment` (lines 333 and 359): `s.end < start || s.start > end`. -/
def keepPred (start «end» : Nat) (s : Segment) : Bool :=
  decide (s.«end» < start) || decide (s.start > «end»)

/-- The reconciler `addOrUpdateSegment` from `ClueHighlighter.tsx` (lines 331-370).
`freshId` stands for the `crypto.randomUUID()` call; the behavior-table
lookup for an unknown `behaviorKey` is `none` (a crash in the source).
`findIndex` / `existingIndex >= 0` / `map` over indices is modelled with
`List.findIdx?` and `List.mapIdx`. -/
def addOrUpdateSegment (text : String) (segments : List Segment)
    (currentMode : Mode) (freshId : String) (start «end» : Nat) :
    Option (List Segment) :=
  if currentMode.behaviorKey == "clear" then
    some (segments.filter (keepPred start «end»))
  else
    match segmentBehaviors currentMode.behaviorKey with
    | none => none
    | some behavior =>
      let segmentText := sliceInclusive text start «end»
      let defaultRes := behavior.getDefaultResolution segmentText
      match segments.findIdx? (fun s => s.start == start && s.«end» == «end») with
      | some existingIndex =>
        some (segments.mapIdx (fun i s =>
          if i == existingIndex then
            { s with mode := currentMode
                     resolution := behavior.getDefaultResolution s.text }
          else s))
      | none =>
        some (segments.filter (keepPred start «end») ++
          [{ id := freshId, start := start, «end» := «end», text := segmentText,
             mode := currentMode, resolution := defaultRes,
             wordplayType := none }])

/-- The field edit `updateResolution` from `ClueHighlighter.tsx` (lines 372-376). -/
def updateResolution (segments : List Segment) (id resolution : String) :
    List Segment :=
  segments.map (fun s => if s.id == id then { s with resolution := resolution } else s)

/-- The field edit `updateWordplayType` from `ClueHighlighter.tsx` (lines 378-385). -/
def updateWordplayType (segments : List Segment) (id : String)
    (wordplayType : Option WordplayType) : List Segment :=
  segments.map (fun s => if s.id == id then { s with wordplayType := wordplayType } else s)

/-! ## Summary projection (`src/ClueHighlighter.tsx`, lines 418-425) -/

/-- The filter predicate `s.resolution || s.wordplayType` of the summary:
truthy iff the resolution is non-empty or a wordplay type is present. -/
def summaryKeep (s : Segment) : Bool :=
  !(s.resolution == "") || s.wordplayType.isSome

/-- The map step of the summary: the wordplay type's display name when
present, else the resolution string. -/
def summaryDisplay (s : Segment) : String :=
  match s.wordplayType with
  | some w => w.name
  | none => s.resolution

/-- The comparator `(a, b) => a.start - b.start`: ascending by `start`.
JavaScript `Array.prototype.sort` is stable, modelled by `List.mergeSort`. -/
def leStart (a b : Segment) : Bool :=
  decide (a.start ≤ b.start)

/-- The `summary` value of `ClueHighlighter.tsx`:
filter, stable sort by `start`, map to display text, join with `" → "`. -/
def summary (segments : List Segment) : String :=
  String.intercalate " → "
    (((segments.filter summaryKeep).mergeSort leStart).map summaryDisplay)

/-! ## Spec-side definitions (spec §4.1, for the refinement claims) -/

/-- Spec §4.1: `isOverlapping(a, b)` on inclusive ranges:
`a.start <= b.end && b.start <= a.end`. -/
def isOverlapping (a b : Nat × Nat) : Bool :=
  decide (a.1 ≤ b.2) && decide (b.1 ≤ a.2)

/-- Two segments' inclusive ranges overlap (the spec's overlap notion,
as a proposition on segments). -/
def overlapping (a b : Segment) : Prop :=
  a.start ≤ b.«end» ∧ b.start ≤ a.«end»

instance (a b : Segment) : Decidable (overlapping a b) := by
  unfold overlapping; exact inferInstance

/-- A segment's range overlaps the selection `[start, end]`. -/
def overlapsSelection (s : Segment) (start «end» : Nat) : Prop :=
  s.start ≤ «end» ∧ start ≤ s.«end»

instance (s : Segment) (a b : Nat) : Decidable (overlapsSelection s a b) := by
  unfold overlapsSelection; exact inferInstance

/-- The segment-model invariant: no two segments of the collection have
overlapping inclusive ranges. -/
def NonOverlapping (segments : List Segment) : Prop :=
  segments.Pairwise (fun a b => ¬ overlapping a b)

instance (l : List Segment) : Decidable (NonOverlapping l) := by
  unfold NonOverlapping; exact inferInstance

/-- Spec §4.1 fodder policy, written as the spec phrases it: strip all
whitespace from the span text, uppercase the remainder. -/
def fodderSpecResolution (text : String) : String :=
  String.mk (text.data.foldr
    (fun c r => if isJsWhitespace c then r else Char.toUpper c :: r) [])

/-- Spec §4.1 abbreviation policy, written as the spec phrases it: the
first character of each whitespace-delimited word, uppercased,
concatenated; words with no characters contribute nothing. -/
def abbreviationSpecResolution (text : String) : String :=
  String.join ((splitWhitespaceRuns text).map (fun word =>
    match word.data with
    | [] => ""
    | c :: _ => String.mk [Char.toUpper c]))

/-- Spec §4.1 / §6: `defaultResolution(mode, spanText)`, delegating to the
mode's behavior descriptor; `none` on an unknown mode (a configuration
error in the spec's terms). -/
def defaultResolution (mode : Mode) (spanText : String) : Option String :=
  (segmentBehaviors mode.behaviorKey).map
    (fun b => b.getDefaultResolution spanText)

/-- The range projection of a segment (all overlap notions factor
through it). -/
def rangeOf (s : Segment) : Nat × Nat :=
  (s.start, s.«end»)

/-! ## Example segments used by the concrete witnesses -/

/-- A segment (range `[0, 2]`) kept by an erase of `[3, 5]`. -/
def egKept : Segment :=
  { id := "k", start := 0, «end» := 2, text := "A l", mode := fodderMode,
    resolution := "AL" }

/-- A segment (range `[4, 6]`) removed by an erase of `[3, 5]`. -/
def egGone : Segment :=
  { id := "g", start := 4, «end» := 6, text := "t t", mode := synonymMode,
    resolution := "T" }

/-- A segment (range `[0, 4]`) adjacent on the left to a selection
starting at 5. -/
def egAdjacent : Segment :=
  { id := "adj", start := 0, «end» := 4, text := "A lot", mode := fodderMode,
    resolution := "ALOT" }

/-- A synonym segment whose resolution the user has edited by hand. -/
def egTyped : Segment :=
  { id := "t1", start := 2, «end» := 5, text := "lot ", mode := synonymMode,
    resolution := "PLENTY" }

/-- The anagram classification (head of the `wordplayTypes` table). -/
def anagramType : WordplayType :=
  { key := "anag", name := "Anagram", symbol := "⟳" }

/-- A wordplay-indicator segment carrying a wordplay classification. -/
def egIndicator : Segment :=
  { id := "w1", start := 0, «end» := 3, text := "darn",
    mode := wordplayIndicatorMode, resolution := "",
    wordplayType := some anagramType }

/-- A segment starting at 5 whose resolution is `"X"`. -/
def egX5 : Segment :=
  { id := "x", start := 5, «end» := 6, text := "to", mode := synonymMode,
    resolution := "X" }

/-- A segment starting at 0 whose resolution is `"Y"`. -/
def egY0 : Segment :=
  { id := "y", start := 0, «end» := 1, text := "A ", mode := synonymMode,
    resolution := "Y" }

/-! ## Helper lemmas -/

theorem keepPred_iff (a b : Nat) (s : Segment) :
    keepPred a b s = true ↔ ¬ overlapsSelection s a b := by
  simp only [keepPred, overlapsSelection, Bool.or_eq_true, decide_eq_true_eq,
    not_and]
  omega

theorem addOrUpdateSegment_clear_eq (text : String) (segments : List Segment)
    (M : Mode) (fid : String) (a b : Nat) (hM : M.behaviorKey = "clear") :
    addOrUpdateSegment text segments M fid a b =
      some (segments.filter (keepPred a b)) := by
  unfold addOrUpdateSegment
  rw [if_pos (by simp [hM])]

theorem addOrUpdateSegment_unknown_eq (text : String) (segments : List Segment)
    (M : Mode) (fid : String) (a b : Nat) (hM : M.behaviorKey ≠ "clear")
    (hb : segmentBehaviors M.behaviorKey = none) :
    addOrUpdateSegment text segments M fid a b = none := by
  unfold addOrUpdateSegment
  rw [if_neg (by simp [hM]), hb]

theorem addOrUpdateSegment_exact_eq (text : String) (segments : List Segment)
    (M : Mode) (behavior : SegmentBehavior) (fid : String) (a b j : Nat)
    (hM : M.behaviorKey ≠ "clear")
    (hb : segmentBehaviors M.behaviorKey = some behavior)
    (hj : segments.findIdx? (fun s => s.start == a && s.«end» == b) = some j) :
    addOrUpdateSegment text segments M fid a b =
      some (segments.mapIdx (fun i s =>
        if i == j then
          { s with mode := M, resolution := behavior.getDefaultResolution s.text }
        else s)) := by
  unfold addOrUpdateSegment
  rw [if_neg (by simp [hM]), hb, hj]

theorem addOrUpdateSegment_insert_eq (text : String) (segments : List Segment)
    (M : Mode) (behavior : SegmentBehavior) (fid : String) (a b : Nat)
    (hM : M.behaviorKey ≠ "clear")
    (hb : segmentBehaviors M.behaviorKey = some behavior)
    (hj : segments.findIdx? (fun s => s.start == a && s.«end» == b) = none) :
    addOrUpdateSegment text segments M fid a b =
      some (segments.filter (keepPred a b) ++
        [{ id := fid, start := a, «end» := b, text := sliceInclusive text a b,
           mode := M,
           resolution := behavior.getDefaultResolution (sliceInclusive text a b),
           wordplayType := none }]) := by
  unfold addOrUpdateSegment
  rw [if_neg (by simp [hM]), hb, hj]

theorem map_mapIdx_of_preserves {α β : Type} {f : Nat → α → α} {g : α → β}
    (l : List α) (h : ∀ i x, g (f i x) = g x) :
    (l.mapIdx f).map g = l.map g := by
  induction l generalizing f with
  | nil => rfl
  | cons a l ih =>
    rw [List.mapIdx_cons, List.map_cons, List.map_cons, h,
      ih (fun i x => h (i + 1) x)]

theorem nonOverlapping_iff_pairwise_map {l : List Segment} :
    NonOverlapping l ↔
      (l.map rangeOf).Pairwise (fun p q => ¬ (p.1 ≤ q.2 ∧ q.1 ≤ p.2)) := by
  rw [NonOverlapping, List.pairwise_map]
  constructor
  · exact fun h => h.imp (fun hab => hab)
  · exact fun h => h.imp (fun hab => hab)

theorem keepPred_of_adjacent (s : Segment) (a b : Nat)
    (h : s.«end» + 1 = a ∨ s.start = b + 1) : keepPred a b s = true := by
  rw [keepPred_iff]
  simp only [overlapsSelection, not_and]
  omega

/-! ## The claims -/

/-- C4: when the active mode is the erase/"clear" mode, the reconciler
removes exactly the segments whose inclusive ranges overlap the selection
`[start, end]`, keeps every other segment unchanged, and creates no
segment (the result is a sublist of the input). -/
theorem erase_branch_spec (text : String) (segments : List Segment) (M : Mode)
    (fid : String) (a b : Nat) (hM : M.behaviorKey = "clear") (_hab : a ≤ b) :
    addOrUpdateSegment text segments M fid a b =
      some (segments.filter (keepPred a b))
    ∧ (∀ s : Segment, s ∈ segments.filter (keepPred a b) ↔
        s ∈ segments ∧ ¬ overlapsSelection s a b)
    ∧ List.Sublist (segments.filter (keepPred a b)) segments := by
  refine ⟨addOrUpdateSegment_clear_eq text segments M fid a b hM, ?_,
    List.filter_sublist segments⟩
  intro s
  rw [List.mem_filter, keepPred_iff]

/-- Witness for C4 at a concrete input: erasing `[3, 5]` keeps the
segment `[0, 2]` and drops the segment `[4, 6]`. -/
theorem erase_branch_spec_witness :
    addOrUpdateSegment "A lot to change" [egKept, egGone] clearMode "f0" 3 5 =
      some (List.filter (keepPred 3 5) [egKept, egGone]) :=
  (erase_branch_spec "A lot to change" [egKept, egGone] clearMode "f0" 3 5 rfl
    (by decide)).1

/-- C6: the spec's overlap predicate is exactly the negation of the
keep-predicate the code filters with, and a segment merely adjacent to the
selection is never removed, neither by the erase branch nor by the
remove-overlaps-and-append branch. -/
theorem overlap_refinement :
    (∀ (s : Segment) (a b : Nat),
        keepPred a b s = !isOverlapping (rangeOf s) (a, b))
    ∧ (∀ (s : Segment) (a b : Nat),
        s.«end» + 1 = a ∨ s.start = b + 1 → keepPred a b s = true)
    ∧ (∀ (text : String) (segments : List Segment) (M : Mode) (fid : String)
        (a b : Nat) (s : Segment) (out : List Segment),
        M.behaviorKey = "clear" → s ∈ segments →
        (s.«end» + 1 = a ∨ s.start = b + 1) →
        addOrUpdateSegment text segments M fid a b = some out → s ∈ out)
    ∧ (∀ (text : String) (segments : List Segment) (M : Mode)
        (behavior : SegmentBehavior) (fid : String) (a b : Nat) (s : Segment)
        (out : List Segment),
        M.behaviorKey ≠ "clear" →
        segmentBehaviors M.behaviorKey = some behavior →
        segments.findIdx? (fun t => t.start == a && t.«end» == b) = none →
        s ∈ segments → (s.«end» + 1 = a ∨ s.start = b + 1) →
        addOrUpdateSegment text segments M fid a b = some out → s ∈ out) := by
  refine ⟨?_, keepPred_of_adjacent, ?_, ?_⟩
  · intro s a b
    simp only [keepPred, isOverlapping, rangeOf, ← Bool.decide_and,
      ← Bool.decide_or, ← decide_not, decide_eq_decide]
    omega
  · intro text segments M fid a b s out hM hs hadj hout
    rw [addOrUpdateSegment_clear_eq text segments M fid a b hM] at hout
    cases hout
    exact List.mem_filter.mpr ⟨hs, keepPred_of_adjacent s a b hadj⟩
  · intro text segments M behavior fid a b s out hM hb hfind hs hadj hout
    rw [addOrUpdateSegment_insert_eq text segments M behavior fid a b hM hb
      hfind] at hout
    cases hout
    exact List.mem_append_left _
      (List.mem_filter.mpr ⟨hs, keepPred_of_adjacent s a b hadj⟩)

/-- Witness for C6 at a concrete input: the segment `[0, 4]` is adjacent
to a selection starting at 5 and is kept. -/
theorem overlap_refinement_witness : keepPred 5 9 egAdjacent = true :=
  overlap_refinement.2.1 egAdjacent 5 9 (Or.inl rfl)

/-- C8: `updateResolution` and `updateWordplayType` with an id absent from
the collection are exact no-ops; with a present id each replaces only the
named field on the segments carrying that id and leaves every other
segment, and every position, unchanged. -/
theorem field_edit_spec :
    (∀ (segments : List Segment) (id r : String),
        (∀ s ∈ segments, s.id ≠ id) → updateResolution segments id r = segments)
    ∧ (∀ (segments : List Segment) (id : String) (w : Option WordplayType),
        (∀ s ∈ segments, s.id ≠ id) →
          updateWordplayType segments id w = segments)
    ∧ (∀ (segments : List Segment) (id r : String) (i : Nat),
        (updateResolution segments id r)[i]? =
          (segments[i]?).map
            (fun s => if s.id == id then { s with resolution := r } else s))
    ∧ (∀ (segments : List Segment) (id : String) (w : Option WordplayType)
        (i : Nat),
        (updateWordplayType segments id w)[i]? =
          (segments[i]?).map
            (fun s => if s.id == id then { s with wordplayType := w } else s)) := by
  refine ⟨?_, ?_, ?_, ?_⟩
  · intro segments id r h
    unfold updateResolution
    have h2 : ∀ s ∈ segments,
        (if s.id == id then { s with resolution := r } else s) = s := by
      intro s hs
      rw [if_neg]
      simp [h s hs]
    exact (List.map_congr_left h2).trans (List.map_id' segments)
  · intro segments id w h
    unfold updateWordplayType
    have h2 : ∀ s ∈ segments,
        (if s.id == id then { s with wordplayType := w } else s) = s := by
      intro s hs
      rw [if_neg]
      simp [h s hs]
    exact (List.map_congr_left h2).trans (List.map_id' segments)
  · intro segments id r i
    unfold updateResolution
    exact List.getElem?_map _ segments i
  · intro segments id w i
    unfold updateWordplayType
    exact List.getElem?_map _ segments i

/-- Witness for C8 at a concrete input: an edit naming an absent id is a
no-op. -/
theorem field_edit_spec_witness :
    updateResolution [egKept] "missing" "HAND" = [egKept] :=
  field_edit_spec.1 [egKept] "missing" "HAND" (by decide)

/-- C2: for a non-erase mode and a selection matching no existing segment
exactly, the reconciler keeps exactly the non-overlapping segments
(unchanged) and appends one new segment with the given fresh id, the
selection's bounds, the inclusive slice of the clue text, the active mode,
the mode's default resolution of that slice, and no wordplay type;
a fresh id keeps the id set duplicate-free. -/
theorem insert_branch_spec (text : String) (segments : List Segment) (M : Mode)
    (behavior : SegmentBehavior) (fid : String) (a b : Nat)
    (hM : M.behaviorKey ≠ "clear")
    (hb : segmentBehaviors M.behaviorKey = some behavior)
    (_hab : a ≤ b)
    (hnew : ∀ s ∈ segments, ¬(s.start = a ∧ s.«end» = b)) :
    addOrUpdateSegment text segments M fid a b =
      some (segments.filter (keepPred a b) ++
        [{ id := fid, start := a, «end» := b, text := sliceInclusive text a b,
           mode := M,
           resolution := behavior.getDefaultResolution (sliceInclusive text a b),
           wordplayType := none }])
    ∧ (∀ s ∈ segments,
        (s ∈ segments.filter (keepPred a b) ↔ ¬ overlapsSelection s a b))
    ∧ ((∀ s ∈ segments, s.id ≠ fid) → (segments.map Segment.id).Nodup →
        ((segments.filter (keepPred a b) ++
          ([{ id := fid, start := a, «end» := b,
              text := sliceInclusive text a b, mode := M,
              resolution := behavior.getDefaultResolution
                (sliceInclusive text a b),
              wordplayType := none }] : List Segment)).map Segment.id).Nodup) := by
  have hfind : segments.findIdx? (fun s => s.start == a && s.«end» == b) = none := by
    rw [List.findIdx?_eq_none_iff]
    intro s hs
    rw [Bool.eq_false_iff]
    intro hT
    exact hnew s hs (by simpa using hT)
  refine ⟨addOrUpdateSegment_insert_eq text segments M behavior fid a b hM hb
    hfind, ?_, ?_⟩
  · intro s hs
    rw [List.mem_filter, keepPred_iff]
    exact ⟨fun h => h.2, fun h => ⟨hs, h⟩⟩
  · intro hfresh hnodup
    rw [List.map_append, List.nodup_append]
    refine ⟨hnodup.sublist ((List.filter_sublist segments).map Segment.id),
      List.nodup_singleton fid, ?_⟩
    intro x hx1 hx2
    rw [List.map_cons, List.map_nil, List.mem_singleton] at hx2
    subst hx2
    obtain ⟨s, hsf, hsid⟩ := List.mem_map.mp hx1
    exact hfresh s (List.mem_of_mem_filter hsf) hsid

/-- Witness for C2 at a concrete input: a fodder selection `[2, 6]` over a
collection holding the segment `[0, 2]` removes it and appends the new
fodder segment. -/
theorem insert_branch_spec_witness :
    addOrUpdateSegment "A lot to change" [egKept] fodderMode "f7" 2 6 =
      some (List.filter (keepPred 2 6) [egKept] ++
        [{ id := "f7", start := 2, «end» := 6,
           text := sliceInclusive "A lot to change" 2 6,
           mode := fodderMode,
           resolution := fodderBehavior.getDefaultResolution
             (sliceInclusive "A lot to change" 2 6),
           wordplayType := none }]) :=
  (insert_branch_spec "A lot to change" [egKept] fodderMode fodderBehavior
    "f7" 2 6 (by decide) rfl (by decide) (by decide)).1

/-- C1: every branch of the reconciler preserves the no-overlap invariant
of the segment collection. -/
theorem reconcile_preserves_nonOverlapping (text : String)
    (segments : List Segment) (M : Mode) (fid : String) (a b : Nat)
    (out : List Segment) (_hab : a ≤ b) (hno : NonOverlapping segments)
    (hout : addOrUpdateSegment text segments M fid a b = some out) :
    NonOverlapping out := by
  by_cases hM : M.behaviorKey = "clear"
  · rw [addOrUpdateSegment_clear_eq text segments M fid a b hM] at hout
    cases hout
    exact List.Pairwise.filter _ hno
  · cases hb : segmentBehaviors M.behaviorKey with
    | none =>
      rw [addOrUpdateSegment_unknown_eq text segments M fid a b hM hb] at hout
      cases hout
    | some behavior =>
      cases hfind : segments.findIdx? (fun s => s.start == a && s.«end» == b) with
      | some j =>
        rw [addOrUpdateSegment_exact_eq text segments M behavior fid a b j hM
          hb hfind] at hout
        cases hout
        have hmap : ((segments.mapIdx fun i s =>
            if i == j then
              { s with mode := M,
                       resolution := behavior.getDefaultResolution s.text }
            else s).map rangeOf) = segments.map rangeOf := by
          apply map_mapIdx_of_preserves
          intro i x
          by_cases h : i == j <;> simp [h, rangeOf]
        rw [nonOverlapping_iff_pairwise_map, hmap,
          ← nonOverlapping_iff_pairwise_map]
        exact hno
      | none =>
        rw [addOrUpdateSegment_insert_eq text segments M behavior fid a b hM
          hb hfind] at hout
        cases hout
        rw [NonOverlapping, List.pairwise_append]
        refine ⟨List.Pairwise.filter _ hno, List.pairwise_singleton _ _, ?_⟩
        intro s hs t ht
        rw [List.mem_singleton] at ht
        subst ht
        have hk := (List.mem_filter.mp hs).2
        rw [keepPred_iff] at hk
        exact hk

/-- Witness for C1 at a concrete input: the collection produced by the
insert branch over a one-segment collection is again non-overlapping. -/
theorem reconcile_preserves_nonOverlapping_witness :
    NonOverlapping
      [{ id := "f7", start := 2, «end» := 6, text := "lot t",
         mode := fodderMode, resolution := "LOTT", wordplayType := none }] :=
  reconcile_preserves_nonOverlapping "A lot to change" [egKept] fodderMode
    "f7" 2 6
    [{ id := "f7", start := 2, «end» := 6, text := "lot t",
       mode := fodderMode, resolution := "LOTT", wordplayType := none }]
    (by decide) (by decide) rfl

/-- C3: on an exact re-selection of an existing span, the reconciler keeps
the collection's length and every other position unchanged, and replaces,
on the matched segment, only the mode (with the active mode) and the
resolution (recomputed from the segment's stored text); id, bounds, text
and wordplay type are untouched. -/
theorem exact_reselect_frame (text : String) (segments : List Segment)
    (M : Mode) (behavior : SegmentBehavior) (fid : String) (a b j : Nat)
    (out : List Segment) (hM : M.behaviorKey ≠ "clear")
    (hb : segmentBehaviors M.behaviorKey = some behavior)
    (hj : segments.findIdx? (fun s => s.start == a && s.«end» == b) = some j)
    (hout : addOrUpdateSegment text segments M fid a b = some out) :
    out.length = segments.length
    ∧ (∀ i : Nat, i ≠ j → out[i]? = segments[i]?)
    ∧ ∃ e : Segment, segments[j]? = some e ∧ e.start = a ∧ e.«end» = b ∧
        out[j]? = some { e with
          mode := M, resolution := behavior.getDefaultResolution e.text } := by
  rw [addOrUpdateSegment_exact_eq text segments M behavior fid a b j hM hb
    hj] at hout
  cases hout
  obtain ⟨hjlt, hpj, _hmin⟩ := List.findIdx?_eq_some_iff_getElem.mp hj
  simp only [Bool.and_eq_true, beq_iff_eq] at hpj
  refine ⟨by simp, ?_, ?_⟩
  · intro i hne
    rw [List.getElem?_mapIdx]
    have h : (i == j) = false := by simpa using hne
    simp [h]
  · refine ⟨segments[j], List.getElem?_eq_getElem hjlt, hpj.1, hpj.2, ?_⟩
    rw [List.getElem?_mapIdx, List.getElem?_eq_getElem hjlt]
    simp

/-- Witness for C3 at a concrete input: the exact re-selection of
`[0, 4]` under synonym mode rewrites only mode and resolution. -/
theorem exact_reselect_frame_witness :
    ∃ e : Segment, ([egAdjacent][0]? = some e) ∧ e.start = 0 ∧ e.«end» = 4 ∧
      ([{ id := "adj", start := 0, «end» := 4, text := "A lot",
          mode := synonymMode, resolution := "", wordplayType := none }] :
        List Segment)[0]? =
        some { e with
          mode := synonymMode,
          resolution := synonymBehavior.getDefaultResolution e.text } :=
  (exact_reselect_frame "A lot to change" [egAdjacent] synonymMode
    synonymBehavior "f9" 0 4 0
    [{ id := "adj", start := 0, «end» := 4, text := "A lot",
       mode := synonymMode, resolution := "", wordplayType := none }]
    (by decide) rfl (by decide) rfl).2.2

/-- C9 (implicit): an exact re-selection under the very mode the segment
already has still resets the resolution to the mode's default of the
stored text, discarding a hand-edited value. -/
theorem exact_reselect_resets_resolution (text : String)
    (segments : List Segment) (M : Mode) (behavior : SegmentBehavior)
    (fid : String) (a b j : Nat) (out : List Segment) (e : Segment)
    (hM : M.behaviorKey ≠ "clear")
    (hb : segmentBehaviors M.behaviorKey = some behavior)
    (hj : segments.findIdx? (fun s => s.start == a && s.«end» == b) = some j)
    (he : segments[j]? = some e)
    (hmode : e.mode = M)
    (hout : addOrUpdateSegment text segments M fid a b = some out) :
    out[j]? =
      some { e with resolution := behavior.getDefaultResolution e.text } := by
  rw [addOrUpdateSegment_exact_eq text segments M behavior fid a b j hM hb
    hj] at hout
  cases hout
  rw [List.getElem?_mapIdx, he]
  simp [hmode]

/-- Witness for C9 at a concrete input: re-selecting the synonym segment
`[2, 5]` under synonym mode wipes the hand-typed resolution `"PLENTY"`
(the synonym default is the empty string). -/
theorem exact_reselect_resets_resolution_witness :
    ([{ id := "t1", start := 2, «end» := 5, text := "lot ",
        mode := synonymMode, resolution := "", wordplayType := none }] :
      List Segment)[0]? =
      some { egTyped with
        resolution := synonymBehavior.getDefaultResolution egTyped.text } :=
  exact_reselect_resets_resolution "A lot to change" [egTyped] synonymMode
    synonymBehavior "f9" 2 5 0
    [{ id := "t1", start := 2, «end» := 5, text := "lot ",
       mode := synonymMode, resolution := "", wordplayType := none }]
    egTyped (by decide) rfl (by decide) rfl rfl rfl

unseal List.merge List.mergeSort in
/-- C10 (implicit): the exact re-selection path preserves the segment's
wordplay type for every target mode, and the summary then still displays
the retained wordplay-type name in preference to the (empty) new
resolution, as the concrete re-tagging of a wordplay-indicator segment to
synonym mode shows. -/
theorem exact_reselect_preserves_wordplayType :
    (∀ (text : String) (segments : List Segment) (M : Mode)
        (behavior : SegmentBehavior) (fid : String) (a b j : Nat)
        (out : List Segment) (e : Segment),
        M.behaviorKey ≠ "clear" →
        segmentBehaviors M.behaviorKey = some behavior →
        segments.findIdx? (fun s => s.start == a && s.«end» == b) = some j →
        segments[j]? = some e →
        addOrUpdateSegment text segments M fid a b = some out →
        ∃ e2 : Segment, out[j]? = some e2 ∧
          e2.wordplayType = e.wordplayType ∧ e2.mode = M ∧
          e2.resolution = behavior.getDefaultResolution e.text)
    ∧ (∃ out : List Segment,
        addOrUpdateSegment "darn word" [egIndicator] synonymMode "n1" 0 3 =
          some out ∧ summary out = "Anagram") := by
  constructor
  · intro text segments M behavior fid a b j out e hM hb hj he hout
    rw [addOrUpdateSegment_exact_eq text segments M behavior fid a b j hM hb
      hj] at hout
    cases hout
    refine ⟨{ e with
      mode := M, resolution := behavior.getDefaultResolution e.text }, ?_,
      rfl, rfl, rfl⟩
    rw [List.getElem?_mapIdx, he]
    simp
  · exact ⟨[{ id := "w1", start := 0, «end» := 3, text := "darn",
              mode := synonymMode, resolution := "",
              wordplayType := some anagramType }], rfl, rfl⟩

theorem string_eq_of_data_eq {s t : String} (h : s.data = t.data) : s = t := by
  cases s
  cases t
  cases h
  rfl

theorem filter_map_toUpper_eq_foldr (cs : List Char) :
    (cs.filter (fun c => !(isJsWhitespace c))).map Char.toUpper =
      cs.foldr (fun c r => if isJsWhitespace c then r else Char.toUpper c :: r)
        [] := by
  induction cs with
  | nil => rfl
  | cons c cs ih =>
    by_cases h : isJsWhitespace c <;> simp [List.filter_cons, h, ih]

theorem fodder_eq_spec (t : String) :
    fodderGetDefaultResolution t = fodderSpecResolution t :=
  congrArg String.mk (filter_map_toUpper_eq_foldr t.data)

theorem abbreviation_eq_spec (t : String) :
    abbreviationGetDefaultResolution t = abbreviationSpecResolution t := by
  apply string_eq_of_data_eq
  unfold abbreviationGetDefaultResolution abbreviationSpecResolution
    jsToUpperCase
  show ((String.join _).data.map Char.toUpper) = (String.join _).data
  rw [String.data_join, String.data_join, List.map_flatten, List.map_map,
    List.map_map, List.map_map]
  apply congrArg List.flatten
  apply List.map_congr_left
  intro w _
  simp only [Function.comp]
  cases hw : w.data with
  | nil => simp [hw]
  | cons c cs => simp [hw]

/-- Witness for C10 at a concrete input: re-tagging the indicator segment
to synonym mode keeps its anagram classification. -/
theorem exact_reselect_preserves_wordplayType_witness :
    ∃ e2 : Segment,
      (([{ id := "w1", start := 0, «end» := 3, text := "darn",
           mode := synonymMode, resolution := "",
           wordplayType := some anagramType }] : List Segment)[0]? = some e2)
      ∧ e2.wordplayType = egIndicator.wordplayType
      ∧ e2.mode = synonymMode
      ∧ e2.resolution = synonymBehavior.getDefaultResolution egIndicator.text :=
  exact_reselect_preserves_wordplayType.1 "darn word" [egIndicator]
    synonymMode synonymBehavior "n1" 0 3 0
    [{ id := "w1", start := 0, «end» := 3, text := "darn",
       mode := synonymMode, resolution := "",
       wordplayType := some anagramType }]
    egIndicator (by decide) rfl (by decide) rfl rfl

/-- C5: `defaultResolution` is a pure function of mode and span text:
fodder strips all whitespace and uppercases the remainder, abbreviation
concatenates the uppercased first character of each whitespace-delimited
word (empty words contributing nothing), and synonym, definition,
wordplay-indicator and clear always give the empty string; in particular
`"A Lot"` gives `"ALOT"` under fodder, `"A Lot To Change"` gives `"ALTC"`
under abbreviation, and `"anything"` gives `""` under synonym. -/
theorem defaultResolution_spec :
    (∀ t : String,
        defaultResolution fodderMode t = some (fodderSpecResolution t))
    ∧ defaultResolution fodderMode "A Lot" = some "ALOT"
    ∧ (∀ t : String,
        defaultResolution abbreviationMode t =
          some (abbreviationSpecResolution t))
    ∧ defaultResolution abbreviationMode "A Lot To Change" = some "ALTC"
    ∧ (∀ t : String,
        defaultResolution synonymMode t = some "" ∧
        defaultResolution definitionMode t = some "" ∧
        defaultResolution wordplayIndicatorMode t = some "" ∧
        defaultResolution clearMode t = some "")
    ∧ defaultResolution synonymMode "anything" = some "" := by
  refine ⟨?_, by decide, ?_, by decide, fun t => ⟨rfl, rfl, rfl, rfl⟩, rfl⟩
  · intro t
    exact congrArg some (fodder_eq_spec t)
  · intro t
    exact congrArg some (abbreviation_eq_spec t)

unseal List.merge List.mergeSort in
/-- C7: the summary keeps exactly the segments with a non-empty resolution
or a wordplay type, sorts them by start ascending, maps each to its
wordplay-type name when present and else to its resolution, and joins with
`" → "`; on the two segments starting at 5 (resolution `"X"`) and at 0
(resolution `"Y"`) it yields `"Y → X"` in either insertion order. -/
theorem summary_spec :
    (∀ s : Segment, summaryKeep s = true ↔
        (s.resolution ≠ "" ∨ s.wordplayType ≠ none))
    ∧ (∀ segments : List Segment, ∃ sorted : List Segment,
        sorted.Perm (segments.filter summaryKeep) ∧
        sorted.Pairwise (fun s t : Segment => s.start ≤ t.start) ∧
        summary segments =
          String.intercalate " → " (sorted.map summaryDisplay))
    ∧ (∀ (s : Segment) (w : WordplayType),
        (s.wordplayType = some w → summaryDisplay s = w.name) ∧
        (s.wordplayType = none → summaryDisplay s = s.resolution))
    ∧ summary [egX5, egY0] = "Y → X"
    ∧ summary [egY0, egX5] = "Y → X" := by
  have htrans : ∀ a b c : Segment,
      leStart a b → leStart b c → leStart a c := by
    intro a b c
    simp only [leStart, decide_eq_true_eq]
    omega
  have htotal : ∀ a b : Segment, leStart a b || leStart b a := by
    intro a b
    simp only [leStart, Bool.or_eq_true, decide_eq_true_eq]
    omega
  refine ⟨?_, ?_, ?_, rfl, rfl⟩
  · intro s
    simp [summaryKeep, Bool.or_eq_true, Bool.not_eq_true',
      Option.isSome_iff_ne_none]
  · intro segments
    refine ⟨(segments.filter summaryKeep).mergeSort leStart,
      List.mergeSort_perm _ _, ?_, rfl⟩
    exact (List.sorted_mergeSort htrans htotal _).imp
      (fun h => by simpa [leStart] using h)
  · intro s w
    constructor
    · intro h
      simp [summaryDisplay, h]
    · intro h
      simp [summaryDisplay, h]

/-- Witness for C7 at a concrete input: the display of a segment carrying
a wordplay type is that type's name. -/
theorem summary_spec_witness : summaryDisplay egIndicator = anagramType.name :=
  (summary_spec.2.2.1 egIndicator anagramType).1 rfl

end Wordplay
